import Mathlib

/-!
Verification development for the wallet-signing benchmark harness
(`benchmark.js`, `benchmark-new.js`, `benchmark-signmessage.js`,
`benchmark-signtransaction.js`, `src/utils/serviceLoader.js`,
`src/services/*/index.js`).

The JavaScript sources are embedded shallowly:

* JS numbers carrying measured durations are modelled as rationals (`ℚ`);
  `Math.sqrt` is the one genuinely irrational operation and is modelled on
  the real numbers (`Real.sqrt`).
* The special JS values `NaN`, `Infinity`, `-Infinity` and `undefined`,
  which `calculateStats` can produce on an empty input array, are modelled
  by the inductive type `JVal` together with the JS coercion/propagation
  rules for the arithmetic that actually occurs in `calculateStats`.
* External effects (service SDK calls, the file system scan of the service
  directory, `performance.now`) are modelled as oracle inputs: a `Provider`
  record says whether its initialization and wallet creation succeed and
  what each signing call does (its duration, and whether it throws).
* A JS exception propagating out of a function is modelled with `Except`;
  `process.exit(1)` after the top-level `catch` corresponds to an
  `Except.error` result of the whole pipeline, in which case no report is
  produced.
* `Array.prototype.sort` with the comparator `(a, b) => a - b` (resp.
  `(a, b) => results[a].mean - results[b].mean`) is a stable ascending sort
  and is modelled by `List.mergeSort` with the corresponding boolean
  less-or-equal test, which is stable and sorts ascending.
-/

/-! ## Statistics aggregator (`calculateStats`, identical in all four benchmark scripts) -/

/-- Index used for the 95th percentile: `Math.floor(sorted.length * 0.95)`. -/
def p95Index (n : ℕ) : ℤ := ⌊(n : ℚ) * 0.95⌋

/-- Index used for the 99th percentile: `Math.floor(sorted.length * 0.99)`. -/
def p99Index (n : ℕ) : ℤ := ⌊(n : ℚ) * 0.99⌋

/-- The sum `times.reduce((a, b) => a + b, 0)`. -/
def sumTimes (times : List ℚ) : ℚ := times.foldl (fun a b => a + b) 0

/-- The mean `sum / times.length`. -/
def meanTimes (times : List ℚ) : ℚ := sumTimes times / (times.length : ℚ)

/-- The population variance
`times.reduce((acc, time) => acc + Math.pow(time - mean, 2), 0) / times.length`. -/
def varianceTimes (times : List ℚ) : ℚ :=
  (times.foldl (fun acc time => acc + (time - meanTimes times) ^ 2) 0) / (times.length : ℚ)

/-- The standard deviation `Math.sqrt(variance)`. -/
noncomputable def stdDev (times : List ℚ) : ℝ := Real.sqrt ((varianceTimes times : ℚ) : ℝ)

/-- The record returned by `calculateStats`. -/
structure Stats where
  min : ℚ
  max : ℚ
  mean : ℚ
  median : ℚ
  standardDeviation : ℝ
  p95 : ℚ
  p99 : ℚ

/-- Shallow embedding of `calculateStats(times)` for the inputs it actually
receives in the benchmark scripts (a non-empty array of finite durations).
`getD ... 0` defaults and the `minimum?`/`maximum?` defaults are unreachable
for non-empty input (for `p95`/`p99` this is exactly claim C2); the behavior
of the JS function on the empty array, where defaults would matter, is
modelled faithfully by `calculateStatsJ` below, JS special values included. -/
noncomputable def calculateStats (times : List ℚ) : Stats :=
  let sorted := times.mergeSort (fun a b => decide (a ≤ b))
  { min := (times.min?).getD 0
    max := (times.max?).getD 0
    mean := meanTimes times
    median :=
      if sorted.length % 2 = 0 then
        (sorted.getD (sorted.length / 2 - 1) 0 + sorted.getD (sorted.length / 2) 0) / 2
      else
        sorted.getD (sorted.length / 2) 0
    standardDeviation := stdDev times
    p95 := sorted.getD (p95Index sorted.length).toNat 0
    p99 := sorted.getD (p99Index sorted.length).toNat 0 }

/-! ## JS special values and `calculateStats` on arbitrary (possibly empty) input

`calculateStats` contains no `throw` and no input validation, so on the
empty array it silently produces the JS special values: `Math.min()` is
`Infinity`, `Math.max()` is `-Infinity`, `0 / 0` is `NaN`, and an
out-of-bounds index read is `undefined`. `JVal` models the values that can
flow through the function, with the JS propagation rules for exactly the
operations the function performs. -/

/-- A JS number as it can appear inside `calculateStats`: a finite value,
`NaN`, `Infinity`, `-Infinity`, or `undefined` (from an out-of-bounds array
read). -/
inductive JVal where
  | num (q : ℚ)
  | nan
  | inf
  | ninf
  | undefJS
deriving DecidableEq, Repr

/-- JS addition `x + y` restricted to the values of `JVal`; `undefined`
coerces to `NaN`, `NaN` propagates, `Infinity + -Infinity` is `NaN`. -/
def jadd : JVal → JVal → JVal
  | .nan, _ => .nan
  | .undefJS, _ => .nan
  | _, .nan => .nan
  | _, .undefJS => .nan
  | .inf, .ninf => .nan
  | .ninf, .inf => .nan
  | .inf, _ => .inf
  | .ninf, _ => .ninf
  | .num _, .inf => .inf
  | .num _, .ninf => .ninf
  | .num a, .num b => .num (a + b)

/-- JS subtraction `q - v` where the left operand is a finite duration. -/
def jsub (q : ℚ) : JVal → JVal
  | .num m => .num (q - m)
  | .nan => .nan
  | .undefJS => .nan
  | .inf => .ninf
  | .ninf => .inf

/-- JS `Math.pow(v, 2)`. -/
def jsq : JVal → JVal
  | .num a => .num (a * a)
  | .nan => .nan
  | .undefJS => .nan
  | .inf => .inf
  | .ninf => .inf

/-- JS division `v / n` where the divisor is an array length or the literal
`2`: `0 / 0` is `NaN`, `q / 0` is a signed infinity for `q ≠ 0`, `NaN` and
`undefined` propagate to `NaN`. -/
def jdivByNat (v : JVal) (n : ℕ) : JVal :=
  match v with
  | .nan => .nan
  | .undefJS => .nan
  | .inf => .inf
  | .ninf => .ninf
  | .num q =>
    if n = 0 then (if q = 0 then .nan else if 0 < q then .inf else .ninf)
    else .num (q / (n : ℚ))

/-- JS array read `l[i]`: the element when `0 ≤ i < l.length`, otherwise
`undefined`. -/
def jidx (l : List ℚ) (i : ℤ) : JVal :=
  if 0 ≤ i ∧ i < (l.length : ℤ) then .num (l.getD i.toNat 0) else .undefJS

/-- JS `Math.min(...times)`: `Infinity` on the empty array. -/
def jmin (l : List ℚ) : JVal :=
  match l.min? with
  | some m => .num m
  | none => .inf

/-- JS `Math.max(...times)`: `-Infinity` on the empty array. -/
def jmax (l : List ℚ) : JVal :=
  match l.max? with
  | some m => .num m
  | none => .ninf

/-- The statistics record with JS special values admitted in every field. -/
structure StatsJ where
  min : JVal
  max : JVal
  mean : JVal
  median : JVal
  standardDeviation : JVal
  p95 : JVal
  p99 : JVal
deriving DecidableEq, Repr

/-- Error channel of the aggregator; the spec prescribes an
`InvalidInputError` on empty input. -/
inductive StatError where
  | invalidInput
deriving DecidableEq, Repr

/-- Shallow embedding of `calculateStats(times)` over JS values, faithful on
every input, the empty array included. `Math.sqrt` is an external primitive
whose exact finite values are irrational, so it enters as the parameter
`sqrtF`, constrained where needed by its IEEE-754 behavior on special values
(`Math.sqrt(NaN)` is `NaN`). The body performs no `throw` and no input
validation, exactly like the source, hence always returns `Except.ok`. -/
def calculateStatsJ (sqrtF : JVal → JVal) (times : List ℚ) : Except StatError StatsJ :=
  let sorted := times.mergeSort (fun a b => decide (a ≤ b))
  let mean := jdivByNat (.num (sumTimes times)) times.length
  let variance :=
    jdivByNat (times.foldl (fun acc time => jadd acc (jsq (jsub time mean))) (.num 0))
      times.length
  let median :=
    if sorted.length % 2 = 0 then
      jdivByNat
        (jadd (jidx sorted ((sorted.length : ℤ) / 2 - 1)) (jidx sorted ((sorted.length : ℤ) / 2)))
        2
    else
      jidx sorted ((sorted.length : ℤ) / 2)
  .ok
    { min := jmin times
      max := jmax times
      mean := mean
      median := median
      standardDeviation := sqrtF variance
      p95 := jidx sorted (p95Index sorted.length)
      p99 := jidx sorted (p99Index sorted.length) }

/-- Stand-in for the external `Math.sqrt` used to instantiate `sqrtF` at
concrete inputs. On special values it follows IEEE-754 (`sqrt NaN = NaN`,
`sqrt Infinity = Infinity`, negative arguments give `NaN`); on non-negative
finite values it is a placeholder, which no theorem below relies on. -/
def sqrtStub : JVal → JVal
  | .num q => if q < 0 then .nan else .num q
  | .nan => .nan
  | .undefJS => .nan
  | .inf => .inf
  | .ninf => .nan

/-! ## Timing harness and discovered-services pipeline (`benchmark-new.js`,
`src/utils/serviceLoader.js`)

External SDK calls are oracles: an `OpBehavior` says, for one
(provider, operation) pair, at which call (counting warm-up and measured
calls together, from 0) the SDK call throws, if ever, and what duration
`performance.now()` observes around the i-th call. -/

/-- Oracle for one signing operation of one provider: `failsAt = some k`
means the k-th call of this operation throws; `dur i` is the wall-clock
duration of the i-th call. -/
structure OpBehavior where
  failsAt : Option ℕ
  dur : ℕ → ℚ

/-- A JS exception thrown by an SDK signing call. -/
inductive OpError where
  | opFailed
deriving DecidableEq, Repr

/-- Top-level failure of the comprehensive pipeline: either the
`No services found in the services directory` throw, or an operation error
propagated out of a benchmark loop. -/
inductive BenchError where
  | noServices
  | operation (e : OpError)
deriving DecidableEq, Repr

/-- The warm-up loop `for (let i = 0; i < warmupIterations; i++) await op()`:
`callIdx` is the index of the next call, `remaining` the number of warm-up
calls still to perform; a throwing call propagates out. -/
def runWarmup (b : OpBehavior) : ℕ → ℕ → Except OpError Unit
  | _, 0 => .ok ()
  | callIdx, remaining + 1 =>
    if b.failsAt = some callIdx then .error .opFailed
    else runWarmup b (callIdx + 1) remaining

/-- The measured loop: each iteration performs one call between
`performance.now()` reads and pushes `end - start` onto `acc`; a throwing
call propagates out and the partial `acc` is discarded with the stack
frame, exactly as the JS local `times` array is. -/
def runMeasured (b : OpBehavior) : ℕ → ℕ → List ℚ → Except OpError (List ℚ)
  | _, 0, acc => .ok acc
  | callIdx, remaining + 1, acc =>
    if b.failsAt = some callIdx then .error .opFailed
    else runMeasured b (callIdx + 1) remaining (acc ++ [b.dur callIdx])

/-- The timing harness `benchmarkMessageSigning` /
`benchmarkTransactionSigning` (and `benchmarkService` in
`benchmark-signmessage.js`): warm-up calls are the calls
`0, …, warm - 1` and contribute nothing; measured calls are the calls
`warm, …, warm + iters - 1`. -/
def runHarness (b : OpBehavior) (iters warm : ℕ) : Except OpError (List ℚ) :=
  match runWarmup b 0 warm with
  | .error e => .error e
  | .ok _ => runMeasured b warm iters []

/-- One discovered service module, as the pipeline sees it: its directory
name (the key in every mapping), its exported `serviceName`, whether
`initializeService()` resolves, whether `createWallet()` resolves, and the
oracle for each of its two signing operations. -/
structure Provider where
  key : String
  serviceName : String
  initOk : Bool
  walletOk : Bool
  msg : OpBehavior
  tx : OpBehavior

/-- Iteration/warm-up configuration of `BENCHMARK_CONFIG`. -/
structure Config where
  msgIters : ℕ
  msgWarm : ℕ
  txIters : ℕ
  txWarm : ℕ

/-- `initializeServices` of `serviceLoader.js`: each provider whose
`initializeService()` rejects is dropped with a warning, never fatally. -/
def initializeServices (ps : List Provider) : List Provider :=
  ps.filter (fun p => p.initOk)

/-- `createWalletsForServices` of `serviceLoader.js`: attempts one wallet
per initialized provider, drops failures per-provider; the result is the
set of keys of the `wallets` mapping. -/
def createWalletsForServices (inited : List Provider) : List String :=
  (inited.filter (fun p => p.walletOk)).map (fun p => p.key)

/-- One benchmark loop of `runComprehensiveBenchmark`: iterate the
initialized services, skip any without a wallet (`if (wallets[serviceName])`),
run the harness for the selected operation, and record
`(service.name, times)`; a harness error propagates out immediately. -/
def benchLoop (sel : Provider → OpBehavior) (iters warm : ℕ) (wallets : List String) :
    List Provider → Except OpError (List (String × List ℚ))
  | [] => .ok []
  | p :: rest =>
    if wallets.contains p.key then
      match runHarness (sel p) iters warm with
      | .error e => .error e
      | .ok ts =>
        match benchLoop sel iters warm wallets rest with
        | .error e => .error e
        | .ok tail => .ok ((p.serviceName, ts) :: tail)
    else benchLoop sel iters warm wallets rest

/-! ## Report builder (`saveResults` in `benchmark-new.js` /
`benchmark-signmessage.js`) -/

/-- One `services` entry of the JSON report: `rawTimes` and `statistics`. -/
structure ServiceEntry where
  rawTimes : List ℚ
  statistics : Stats

/-- One element of the `rankings` array of a comparison block. -/
structure RankingEntry where
  rank : ℕ
  service : String
  meanTime : ℚ

/-- The `comparison` block of the JSON report. -/
structure Comparison where
  fastest : String
  slowest : String
  rankings : List RankingEntry

/-- The lookup `serviceResults[serviceName].mean` used both by the sort
comparator and by the `rankings` map. Keys passed in are always keys of
`rs`, so the `none` branch (JS `undefined`) is unreachable where used. -/
def meanOf (rs : List (String × Stats)) (name : String) : ℚ :=
  match rs.lookup name with
  | some s => s.mean
  | none => 0

/-- The sorted name list
`serviceNames.sort((a, b) => results[a].mean - results[b].mean)`:
a stable ascending sort by mean. -/
def sortedServiceNames (rs : List (String × Stats)) : List String :=
  (rs.map Prod.fst).mergeSort (fun a b => decide (meanOf rs a ≤ meanOf rs b))

/-- The comparison block built by `saveResults` when at least two services
have results: `fastest` is the first sorted name, `slowest` the last, and
`rankings` maps the sorted names to `rank = index + 1`, the name, and that
service's mean. -/
def buildComparison (rs : List (String × Stats)) : Comparison :=
  let sorted := sortedServiceNames rs
  { fastest := sorted.headD ""
    slowest := sorted.getLastD ""
    rankings := sorted.enum.map (fun ie => ⟨ie.1 + 1, ie.2, meanOf rs ie.2⟩) }

/-- The report assembled by `saveResults` in `benchmark-new.js`: a
`services` block and a `comparison` block per operation (the latter only
when at least two services have results). Timestamp, geolocation and the
configuration echo are environment metadata with no logical content and are
omitted. -/
structure Report where
  msgServices : List (String × ServiceEntry)
  txServices : List (String × ServiceEntry)
  msgComparison : Option Comparison
  txComparison : Option Comparison

/-- Per-operation half of `saveResults`: the `services` block keyed by
service name holding raw times plus `calculateStats` output (the JS code
keeps the two parallel maps `rawTimes[name]` and `results[name] =
calculateStats(times)` filled in the same loop), and the `comparison` block
guarded by `Object.keys(results).length >= 2`. -/
noncomputable def buildServicesBlock (raw : List (String × List ℚ)) :
    List (String × ServiceEntry) :=
  raw.map (fun nt => (nt.1, { rawTimes := nt.2, statistics := calculateStats nt.2 }))

/-- Statistics map `results[name] = calculateStats(times)` for one operation. -/
noncomputable def statsOfRaw (raw : List (String × List ℚ)) : List (String × Stats) :=
  raw.map (fun nt => (nt.1, calculateStats nt.2))

/-- The `comparison` block `saveResults` emits for one operation: built by
`buildComparison` from the statistics map, but only when
`Object.keys(results).length >= 2`. -/
noncomputable def comparisonBlock (raw : List (String × List ℚ)) : Option Comparison :=
  if 2 ≤ (statsOfRaw raw).length then some (buildComparison (statsOfRaw raw)) else none

/-- The full `saveResults` of `benchmark-new.js` on the two raw-times maps. -/
noncomputable def saveResults (msgRaw txRaw : List (String × List ℚ)) : Report :=
  { msgServices := buildServicesBlock msgRaw
    txServices := buildServicesBlock txRaw
    msgComparison := comparisonBlock msgRaw
    txComparison := comparisonBlock txRaw }

/-- `runComprehensiveBenchmark` of `benchmark-new.js`: throw
`No services found in the services directory` when discovery returned an
empty mapping; otherwise initialize services (dropping failures), provision
wallets (dropping failures), run the message loop then the transaction loop
(any harness exception propagates to the top-level catch, which exits the
process with code 1 — modelled as `Except.error` — without writing any
report), and finally assemble the report. -/
noncomputable def runComprehensiveBenchmark (cfg : Config) (ps : List Provider) :
    Except BenchError Report :=
  if ps.length = 0 then .error .noServices
  else
    let inited := initializeServices ps
    let wallets := createWalletsForServices inited
    match benchLoop Provider.msg cfg.msgIters cfg.msgWarm wallets inited with
    | .error e => .error (.operation e)
    | .ok msgRaw =>
      match benchLoop Provider.tx cfg.txIters cfg.txWarm wallets inited with
      | .error e => .error (.operation e)
      | .ok txRaw => .ok (saveResults msgRaw txRaw)

/-! ## Timed-region model for the transaction-signing benchmarks

Each measured iteration performs three externally-visible actions:
fetching the latest blockhash, constructing the transfer transaction, and
the provider signing call. A variant of the benchmark is characterised by
which of these actions fall between the two `performance.now()` reads; the
recorded duration is the total cost of the timed actions. -/

/-- The per-iteration actions of a transaction-signing benchmark. -/
inductive TxStep where
  | fetchBlockhash
  | buildTransaction
  | signCall
deriving DecidableEq, Repr

/-- Body of `signTransaction` in `src/services/privy/index.js` (and the
other adapters): `connection.getLatestBlockhash()`, transaction
construction, then the SDK signing call — all inside the one function. -/
def adapterSignTransactionSteps : List TxStep :=
  [.fetchBlockhash, .buildTransaction, .signCall]

/-- Timed region of one measured iteration of `benchmarkTransactionSigning`
in `benchmark-new.js`: `performance.now()` brackets the whole
`serviceModule.signTransaction(wallet, transactionConfig)` call. -/
def timedStepsComprehensive : List TxStep := adapterSignTransactionSteps

/-- Per-iteration setup of `benchmarkTurnkey` / `benchmarkPrivy` in
`benchmark-signtransaction.js`: `createTransaction` (blockhash fetch plus
construction) runs before the first `performance.now()` read. -/
def setupStepsStandalone : List TxStep := [.fetchBlockhash, .buildTransaction]

/-- Timed region of one measured iteration in
`benchmark-signtransaction.js`: only the signing call sits between the two
`performance.now()` reads. -/
def timedStepsStandalone : List TxStep := [.signCall]

/-- Recorded wall-clock duration: total cost of the steps inside the timed
region, for a cost oracle assigning each action its wall-clock cost. -/
def elapsedTime (cost : TxStep → ℚ) (steps : List TxStep) : ℚ :=
  (steps.map cost).sum

/-- A concrete cost assignment separating the three actions. -/
def exampleCost : TxStep → ℚ
  | .fetchBlockhash => 5
  | .buildTransaction => 1
  | .signCall => 2

/-! ## Concrete inputs used by witnesses and counterexamples -/

/-- A statistics record with all fields constantly `m`. -/
noncomputable def constStats (m : ℚ) : Stats :=
  { min := m, max := m, mean := m, median := m, standardDeviation := 0, p95 := m, p99 := m }

/-- An operation that never throws and always takes 1 ms. -/
def steadyOp : OpBehavior := { failsAt := none, dur := fun _ => 1 }

/-- An operation whose k-th call throws. -/
def failingOpAt (k : ℕ) : OpBehavior := { failsAt := some k, dur := fun _ => 1 }

/-- A provider that succeeds at everything. -/
def providerA : Provider :=
  { key := "a", serviceName := "A", initOk := true, walletOk := true,
    msg := steadyOp, tx := steadyOp }

/-- A second provider that succeeds at everything. -/
def providerB : Provider :=
  { key := "b", serviceName := "B", initOk := true, walletOk := true,
    msg := steadyOp, tx := steadyOp }

/-- A provider whose `initializeService()` rejects. -/
def providerInitFails : Provider :=
  { key := "x", serviceName := "X", initOk := false, walletOk := true,
    msg := steadyOp, tx := steadyOp }

/-- A provider whose message-signing call number 2 (iteration 1 of the
measured phase under `cfgSmall`) throws. -/
def providerMsgThrows : Provider :=
  { key := "m", serviceName := "M", initOk := true, walletOk := true,
    msg := failingOpAt 2, tx := steadyOp }

/-- A small iteration configuration: 2 measured iterations and 1 warm-up
iteration per operation. -/
def cfgSmall : Config := { msgIters := 2, msgWarm := 1, txIters := 2, txWarm := 1 }

/-- Two services with equal mean, inserted in the order `b` then `a`. -/
noncomputable def rsTie : List (String × Stats) := [("b", constStats 1), ("a", constStats 1)]

/-- The same two equal-mean services, inserted in the order `a` then `b`. -/
noncomputable def rsTie2 : List (String × Stats) := [("a", constStats 1), ("b", constStats 1)]

/-- Two services with distinct means, already in ascending order. -/
noncomputable def rsRank : List (String × Stats) := [("a", constStats 1), ("b", constStats 2)]

/-! ## Helper lemmas: sums and folds -/

theorem foldl_add_eq_sum (l : List ℚ) : ∀ a : ℚ, l.foldl (fun x y => x + y) a = a + l.sum := by
  induction l with
  | nil => intro a; simp
  | cons t l ih => intro a; simp [ih (a + t)]; ring

theorem foldl_add_map_eq_sum (f : ℚ → ℚ) (l : List ℚ) :
    ∀ a : ℚ, l.foldl (fun acc t => acc + f t) a = a + (l.map f).sum := by
  induction l with
  | nil => intro a; simp
  | cons t l ih => intro a; simp [ih (a + f t)]; ring

theorem sumTimes_eq_sum (l : List ℚ) : sumTimes l = l.sum := by
  simp [sumTimes, foldl_add_eq_sum]

theorem sum_eq_zero_iff_of_nonneg (l : List ℚ) (h : ∀ x ∈ l, 0 ≤ x) :
    l.sum = 0 ↔ ∀ x ∈ l, x = 0 := by
  induction l with
  | nil => simp
  | cons t l ih =>
    have ht : 0 ≤ t := h t (List.mem_cons_self t l)
    have hl : ∀ x ∈ l, 0 ≤ x := fun x hx => h x (List.mem_cons_of_mem t hx)
    have hsum : 0 ≤ l.sum := List.sum_nonneg hl
    simp only [List.sum_cons, List.mem_cons]
    constructor
    · intro h0
      have := (add_eq_zero_iff_of_nonneg ht hsum).mp h0
      intro x hx
      rcases hx with rfl | hx
      · exact this.1
      · exact (ih hl).mp this.2 x hx
    · intro hall
      have h1 : t = 0 := hall t (Or.inl rfl)
      have h2 : l.sum = 0 := (ih hl).mpr fun x hx => hall x (Or.inr hx)
      rw [h1, h2, add_zero]

theorem sum_const_list (l : List ℚ) (c : ℚ) (h : ∀ x ∈ l, x = c) :
    l.sum = c * l.length := by
  induction l with
  | nil => simp
  | cons t l ih =>
    have ht : t = c := h t (List.mem_cons_self t l)
    have hl : l.sum = c * l.length := ih fun x hx => h x (List.mem_cons_of_mem t hx)
    simp [ht, hl]
    ring

theorem meanTimes_of_const (l : List ℚ) (c : ℚ) (hne : l ≠ []) (h : ∀ x ∈ l, x = c) :
    meanTimes l = c := by
  have hlen : (l.length : ℚ) ≠ 0 := by
    have h0 : l.length ≠ 0 := by
      intro h0
      exact hne (List.length_eq_zero.mp h0)
    exact_mod_cast h0
  rw [meanTimes, sumTimes_eq_sum, sum_const_list l c h, mul_div_assoc, div_self hlen,
    mul_one]

/-! ## Helper lemmas: variance and mean -/

theorem varianceTimes_eq_sum (l : List ℚ) :
    varianceTimes l = (l.map (fun t => (t - meanTimes l) ^ 2)).sum / (l.length : ℚ) := by
  simp [varianceTimes, foldl_add_map_eq_sum]

theorem varianceTimes_nonneg (l : List ℚ) : 0 ≤ varianceTimes l := by
  rw [varianceTimes_eq_sum]
  apply div_nonneg
  · apply List.sum_nonneg
    intro x hx
    obtain ⟨t, _, rfl⟩ := List.mem_map.mp hx
    positivity
  · positivity

theorem varianceTimes_eq_zero_iff (l : List ℚ) (hne : l ≠ []) :
    varianceTimes l = 0 ↔ ∀ x ∈ l, x = meanTimes l := by
  have hlen : (l.length : ℚ) ≠ 0 := by
    have h0 : l.length ≠ 0 := fun h0 => hne (List.length_eq_zero.mp h0)
    exact_mod_cast h0
  rw [varianceTimes_eq_sum, div_eq_zero_iff]
  have hnn : ∀ x ∈ l.map (fun t => (t - meanTimes l) ^ 2), 0 ≤ x := by
    intro x hx
    obtain ⟨t, _, rfl⟩ := List.mem_map.mp hx
    positivity
  constructor
  · intro hc
    rcases hc with hc | hc
    · intro x hx
      have hx2 : (x - meanTimes l) ^ 2 = 0 :=
        (sum_eq_zero_iff_of_nonneg _ hnn).mp hc _ (List.mem_map.mpr ⟨x, hx, rfl⟩)
      have := pow_eq_zero_iff (n := 2) (by norm_num) |>.mp hx2
      linarith [sub_eq_zero.mp this]
    · exact absurd hc hlen
  · intro hall
    left
    rw [sum_eq_zero_iff_of_nonneg _ hnn]
    intro x hx
    obtain ⟨t, ht, rfl⟩ := List.mem_map.mp hx
    rw [hall t ht]
    ring

theorem allEq_iff_eq_mean (l : List ℚ) (hne : l ≠ []) :
    (∀ x ∈ l, x = meanTimes l) ↔ ∀ x ∈ l, ∀ y ∈ l, x = y := by
  constructor
  · intro h x hx y hy
    rw [h x hx, h y hy]
  · intro h x hx
    have hc : ∀ z ∈ l, z = x := fun z hz => h z hz x hx
    rw [meanTimes_of_const l x hne hc]

/-! ## Helper lemmas: percentile indices -/

theorem p95Index_nonneg (n : ℕ) : 0 ≤ p95Index n :=
  Int.floor_nonneg.mpr (by positivity)

theorem p99Index_nonneg (n : ℕ) : 0 ≤ p99Index n :=
  Int.floor_nonneg.mpr (by positivity)

theorem p95Index_lt (n : ℕ) (h : 1 ≤ n) : p95Index n < (n : ℤ) := by
  rw [p95Index, Int.floor_lt]
  have hn : (0 : ℚ) < n := by exact_mod_cast h
  calc (n : ℚ) * 0.95 < (n : ℚ) * 1 := mul_lt_mul_of_pos_left (by norm_num) hn
    _ = ((n : ℤ) : ℚ) := by push_cast; ring

theorem p99Index_lt (n : ℕ) (h : 1 ≤ n) : p99Index n < (n : ℤ) := by
  rw [p99Index, Int.floor_lt]
  have hn : (0 : ℚ) < n := by exact_mod_cast h
  calc (n : ℚ) * 0.99 < (n : ℚ) * 1 := mul_lt_mul_of_pos_left (by norm_num) hn
    _ = ((n : ℤ) : ℚ) := by push_cast; ring

theorem getD_mergeSort_mem (times : List ℚ) (i : ℤ) (h0 : 0 ≤ i)
    (hl : i < (times.length : ℤ)) :
    (times.mergeSort (fun a b => decide (a ≤ b))).getD i.toNat 0 ∈ times := by
  have hlen : (times.mergeSort (fun a b => decide (a ≤ b))).length = times.length :=
    List.length_mergeSort times
  have hi : i.toNat < (times.mergeSort (fun a b => decide (a ≤ b))).length := by
    rw [hlen]; omega
  rw [List.getD_eq_getElem _ _ hi]
  exact List.mem_mergeSort.mp (List.getElem_mem hi)

/-! ## Claim C1 -/

/-- C1, counterexample: on the empty measurement the aggregator does not
fail with an `InvalidInputError` — it returns (`Except.ok`) a statistics
object whose `mean`, `median` and `standardDeviation` are `NaN`, whose
`min`/`max` are `Infinity`/`-Infinity`, and whose `p95`/`p99` are
`undefined`, refuting both halves of the claim at the concrete input `[]`. -/
theorem calculateStats_empty_counterexample :
    calculateStatsJ sqrtStub [] =
      .ok { min := .inf, max := .ninf, mean := .nan, median := .nan,
            standardDeviation := .nan, p95 := .undefJS, p99 := .undefJS } := by
  norm_num [calculateStatsJ, sumTimes, jdivByNat, jadd, jidx, jmin, jmax, sqrtStub,
    p95Index, p99Index, List.mergeSort_nil]

/-- C1, amended: for the empty measurement, `calculateStats` does not throw;
for every model of `Math.sqrt` that propagates `NaN`, it returns a
degenerate statistics object with `min = Infinity`, `max = -Infinity`,
`NaN` mean, median and standard deviation, and `undefined` `p95`/`p99`. -/
theorem calculateStats_empty_returns_degenerate (sqrtF : JVal → JVal)
    (hs : sqrtF .nan = .nan) :
    calculateStatsJ sqrtF [] =
      .ok { min := .inf, max := .ninf, mean := .nan, median := .nan,
            standardDeviation := .nan, p95 := .undefJS, p99 := .undefJS } := by
  norm_num [calculateStatsJ, sumTimes, jdivByNat, jadd, jidx, jmin, jmax, hs,
    p95Index, p99Index, List.mergeSort_nil]

/-- Witness for C1 (amended): the hypothesis holds for the concrete square
root stand-in, and the conclusion follows at that instance. -/
theorem calculateStats_empty_returns_degenerate_witness :
    sqrtStub .nan = .nan ∧
    calculateStatsJ sqrtStub [] =
      .ok { min := .inf, max := .ninf, mean := .nan, median := .nan,
            standardDeviation := .nan, p95 := .undefJS, p99 := .undefJS } :=
  ⟨rfl, calculateStats_empty_returns_degenerate sqrtStub rfl⟩

/-! ## Claim C2 -/

/-- C2: for every non-empty measurement of length n, the nearest-rank
indices `floor(n * 0.95)` and `floor(n * 0.99)` satisfy `0 ≤ index < n`,
and consequently the `p95` and `p99` fields returned by `calculateStats`
are elements of the measurement (no out-of-bounds read occurs). -/
theorem percentile_within_bounds (times : List ℚ) (h : times ≠ []) :
    (0 ≤ p95Index times.length ∧ p95Index times.length < (times.length : ℤ)) ∧
    (0 ≤ p99Index times.length ∧ p99Index times.length < (times.length : ℤ)) ∧
    (calculateStats times).p95 ∈ times ∧ (calculateStats times).p99 ∈ times := by
  have h1 : 1 ≤ times.length := List.length_pos.mpr h
  have hlen : (times.mergeSort (fun a b => decide (a ≤ b))).length = times.length :=
    List.length_mergeSort times
  refine ⟨⟨p95Index_nonneg _, p95Index_lt _ h1⟩, ⟨p99Index_nonneg _, p99Index_lt _ h1⟩,
    ?_, ?_⟩
  · show (times.mergeSort (fun a b => decide (a ≤ b))).getD
      (p95Index (times.mergeSort (fun a b => decide (a ≤ b))).length).toNat 0 ∈ times
    rw [hlen]
    exact getD_mergeSort_mem times _ (p95Index_nonneg _) (p95Index_lt _ h1)
  · show (times.mergeSort (fun a b => decide (a ≤ b))).getD
      (p99Index (times.mergeSort (fun a b => decide (a ≤ b))).length).toNat 0 ∈ times
    rw [hlen]
    exact getD_mergeSort_mem times _ (p99Index_nonneg _) (p99Index_lt _ h1)

/-- Witness for C2 at the concrete measurement `[10, 20, 30]`. -/
theorem percentile_within_bounds_witness :
    (([10, 20, 30] : List ℚ) ≠ []) ∧
    ((0 ≤ p95Index 3 ∧ p95Index 3 < (3 : ℤ)) ∧
      (0 ≤ p99Index 3 ∧ p99Index 3 < (3 : ℤ)) ∧
      (calculateStats [10, 20, 30]).p95 ∈ ([10, 20, 30] : List ℚ) ∧
      (calculateStats [10, 20, 30]).p99 ∈ ([10, 20, 30] : List ℚ)) :=
  ⟨by simp, percentile_within_bounds [10, 20, 30] (by simp)⟩

/-! ## Claim C9 -/

/-- C9: for every non-empty measurement, the standard deviation returned by
`calculateStats` is non-negative, and it is zero exactly when all the
durations in the measurement are equal. -/
theorem standardDeviation_nonneg_and_zero_iff (times : List ℚ) (h : times ≠ []) :
    0 ≤ (calculateStats times).standardDeviation ∧
    ((calculateStats times).standardDeviation = 0 ↔
      ∀ x ∈ times, ∀ y ∈ times, x = y) := by
  have hsd : (calculateStats times).standardDeviation = stdDev times := rfl
  constructor
  · rw [hsd]
    exact Real.sqrt_nonneg _
  · rw [hsd, stdDev, Real.sqrt_eq_zero']
    have hv := varianceTimes_nonneg times
    constructor
    · intro hle
      have hq : varianceTimes times ≤ 0 := by exact_mod_cast hle
      have h0 : varianceTimes times = 0 := le_antisymm hq hv
      exact (allEq_iff_eq_mean times h).mp ((varianceTimes_eq_zero_iff times h).mp h0)
    · intro hall
      have h0 : varianceTimes times = 0 :=
        (varianceTimes_eq_zero_iff times h).mpr ((allEq_iff_eq_mean times h).mpr hall)
      rw [h0]
      norm_num

/-- Witness for C9 at the concrete measurement `[2, 2]`. -/
theorem standardDeviation_nonneg_and_zero_iff_witness :
    (([2, 2] : List ℚ) ≠ []) ∧
    (0 ≤ (calculateStats [2, 2]).standardDeviation ∧
      ((calculateStats [2, 2]).standardDeviation = 0 ↔
        ∀ x ∈ ([2, 2] : List ℚ), ∀ y ∈ ([2, 2] : List ℚ), x = y)) :=
  ⟨by simp, standardDeviation_nonneg_and_zero_iff [2, 2] (by simp)⟩

/-! ## Helper lemmas: the timing harness -/

theorem runWarmup_ok (b : OpBehavior) :
    ∀ (remaining s : ℕ), (∀ j, s ≤ j → j < s + remaining → b.failsAt ≠ some j) →
      runWarmup b s remaining = .ok () := by
  intro remaining
  induction remaining with
  | zero => intro s _; rfl
  | succ r ih =>
    intro s hnone
    rw [runWarmup]
    have hs : b.failsAt ≠ some s := hnone s le_rfl (by omega)
    rw [if_neg hs]
    exact ih (s + 1) (fun j h1 h2 => hnone j (by omega) (by omega))

theorem runWarmup_err (b : OpBehavior) (k : ℕ) (hk : b.failsAt = some k) :
    ∀ (remaining s : ℕ), s ≤ k → k < s + remaining →
      runWarmup b s remaining = .error .opFailed := by
  intro remaining
  induction remaining with
  | zero => intro s h1 h2; omega
  | succ r ih =>
    intro s h1 h2
    rw [runWarmup]
    by_cases hks : k = s
    · subst hks
      rw [if_pos hk]
    · rw [if_neg (by rw [hk]; simp; exact hks)]
      exact ih (s + 1) (by omega) (by omega)

theorem runMeasured_ok (b : OpBehavior) (hb : b.failsAt = none) :
    ∀ (remaining s : ℕ) (acc : List ℚ),
      runMeasured b s remaining acc = .ok (acc ++ (List.range remaining).map (fun j => b.dur (s + j))) := by
  intro remaining
  induction remaining with
  | zero => intro s acc; simp [runMeasured]
  | succ r ih =>
    intro s acc
    rw [runMeasured]
    rw [if_neg (by rw [hb]; simp)]
    rw [ih (s + 1) (acc ++ [b.dur s])]
    have hfun : (fun j => b.dur (s + 1 + j)) = (fun j => b.dur (s + (j + 1))) := by
      funext j
      congr 1
      omega
    rw [List.range_succ_eq_map]
    simp [hfun, List.map_map, Function.comp_def]

theorem runMeasured_err (b : OpBehavior) (k : ℕ) (hk : b.failsAt = some k) :
    ∀ (remaining s : ℕ) (acc : List ℚ), s ≤ k → k < s + remaining →
      runMeasured b s remaining acc = .error .opFailed := by
  intro remaining
  induction remaining with
  | zero => intro s acc h1 h2; omega
  | succ r ih =>
    intro s acc h1 h2
    rw [runMeasured]
    by_cases hks : k = s
    · subst hks
      rw [if_pos hk]
    · rw [if_neg (by rw [hk]; simp; exact hks)]
      exact ih (s + 1) _ (by omega) (by omega)

/-- Measured durations produced by a fault-free harness run. -/
theorem runHarness_ok (b : OpBehavior) (iters warm : ℕ) (hb : b.failsAt = none) :
    runHarness b iters warm = .ok ((List.range iters).map (fun j => b.dur (warm + j))) := by
  rw [runHarness, runWarmup_ok b warm 0 (by simp [hb]), runMeasured_ok b hb iters warm []]
  simp

theorem runHarness_err (b : OpBehavior) (iters warm k : ℕ) (hk : b.failsAt = some k)
    (hr : k < warm + iters) : runHarness b iters warm = .error .opFailed := by
  rw [runHarness]
  by_cases hkw : k < warm
  · rw [runWarmup_err b k hk warm 0 (by omega) (by omega)]
  · rw [runWarmup_ok b warm 0 (by intro j h1 h2; simp [hk]; omega)]
    exact runMeasured_err b k hk iters warm [] (by omega) (by omega)

/-! ## Helper lemmas: benchmark loops and pipeline -/

theorem benchLoop_ok (sel : Provider → OpBehavior) (iters warm : ℕ) (wallets : List String) :
    ∀ l : List Provider, (∀ p ∈ l, (sel p).failsAt = none) →
      benchLoop sel iters warm wallets l =
        .ok ((l.filter (fun p => wallets.contains p.key)).map
          (fun p => (p.serviceName, (List.range iters).map (fun j => (sel p).dur (warm + j))))) := by
  intro l
  induction l with
  | nil => intro _; rfl
  | cons p rest ih =>
    intro hall
    rw [benchLoop]
    by_cases hc : wallets.contains p.key = true
    · have hc2 : p.key ∈ wallets := by simpa using hc
      rw [if_pos hc, runHarness_ok _ _ _ (hall p (List.mem_cons_self p rest)),
        ih (fun q hq => hall q (List.mem_cons_of_mem p hq))]
      simp [List.filter_cons, hc2]
    · have hc2 : ¬ p.key ∈ wallets := by simpa using hc
      rw [if_neg hc, ih (fun q hq => hall q (List.mem_cons_of_mem p hq))]
      simp [List.filter_cons, hc2]

theorem benchLoop_err (sel : Provider → OpBehavior) (iters warm : ℕ) (wallets : List String) :
    ∀ (l : List Provider) (p : Provider), p ∈ l → wallets.contains p.key = true →
      runHarness (sel p) iters warm = .error .opFailed →
      ∃ e, benchLoop sel iters warm wallets l = .error e := by
  intro l
  induction l with
  | nil => intro p hp; cases hp
  | cons q rest ih =>
    intro p hp hcw hrun
    rw [benchLoop]
    rcases List.mem_cons.mp hp with rfl | hp2
    · rw [if_pos hcw, hrun]
      exact ⟨.opFailed, rfl⟩
    · by_cases hcq : wallets.contains q.key = true
      · rw [if_pos hcq]
        cases hq : runHarness (sel q) iters warm with
        | error e => exact ⟨e, rfl⟩
        | ok ts =>
          obtain ⟨e, he⟩ := ih p hp2 hcw hrun
          rw [he]
          exact ⟨e, rfl⟩
      · rw [if_neg hcq]
        exact ih p hp2 hcw hrun

theorem benchLoop_no_wallets (sel : Provider → OpBehavior) (iters warm : ℕ) :
    ∀ l : List Provider, benchLoop sel iters warm [] l = .ok [] := by
  intro l
  induction l with
  | nil => rfl
  | cons p rest ih =>
    rw [benchLoop]
    rw [if_neg (by simp)]
    exact ih

theorem wallets_contains_eq (ps : List Provider) (hnd : (ps.map Provider.key).Nodup)
    (p : Provider) (hp : p ∈ initializeServices ps) :
    (createWalletsForServices (initializeServices ps)).contains p.key = p.walletOk := by
  have hsub : List.Sublist (initializeServices ps) ps := List.filter_sublist ps
  have hndI : ((initializeServices ps).map Provider.key).Nodup :=
    (hsub.map Provider.key).nodup hnd
  cases hw : p.walletOk with
  | true =>
    have hmem : p.key ∈ createWalletsForServices (initializeServices ps) :=
      List.mem_map_of_mem Provider.key (List.mem_filter.mpr ⟨hp, hw⟩)
    exact List.elem_eq_true_of_mem hmem
  | false =>
    apply Bool.eq_false_iff.mpr
    intro hcon
    have hmem : p.key ∈ createWalletsForServices (initializeServices ps) := by
      simpa using hcon
    obtain ⟨q, hq, hqkey⟩ := List.mem_map.mp hmem
    have hq2 := List.mem_filter.mp hq
    have : q = p := List.inj_on_of_nodup_map hndI hq2.1 hp hqkey
    rw [this] at hq2
    rw [hq2.2] at hw
    cases hw

theorem active_filter_eq (ps : List Provider) (hnd : (ps.map Provider.key).Nodup) :
    (initializeServices ps).filter
        (fun p => (createWalletsForServices (initializeServices ps)).contains p.key) =
      ps.filter (fun p => p.initOk && p.walletOk) := by
  rw [List.filter_congr (fun x hx => wallets_contains_eq ps hnd x hx)]
  rw [initializeServices, List.filter_filter]
  exact List.filter_congr (fun a _ => by rw [Bool.and_comm])

theorem map_fst_buildServicesBlock (raw : List (String × List ℚ)) :
    (buildServicesBlock raw).map Prod.fst = raw.map Prod.fst := by
  simp [buildServicesBlock, List.map_map, Function.comp_def]

/-! ## Claim C6 -/

/-- C6: a fault-free harness run with `iterations = N` and any warm-up count
returns a measurement of length exactly N, in call order (entry i is the
duration of measured call i, i.e. overall call `warm + i`), with warm-up
calls contributing no entries, whatever the durations are. -/
theorem harness_returns_exact_measurement (b : OpBehavior) (iters warm : ℕ)
    (hb : b.failsAt = none) :
    ∃ ts, runHarness b iters warm = .ok ts ∧ ts.length = iters ∧
      ∀ (i : ℕ) (h : i < ts.length), ts.get ⟨i, h⟩ = b.dur (warm + i) := by
  refine ⟨_, runHarness_ok b iters warm hb, by simp, ?_⟩
  intro i h
  simp [List.get_eq_getElem]

/-- Witness for C6: a 3-iteration, 2-warm-up run of a fault-free operation. -/
theorem harness_returns_exact_measurement_witness :
    steadyOp.failsAt = none ∧
    ∃ ts, runHarness steadyOp 3 2 = .ok ts ∧ ts.length = 3 ∧
      ∀ (i : ℕ) (h : i < ts.length), ts.get ⟨i, h⟩ = steadyOp.dur (2 + i) :=
  ⟨rfl, harness_returns_exact_measurement steadyOp 3 2 rfl⟩

/-! ## Claim C4 -/

/-- C4: a call that throws during warm-up or the measured phase makes the
harness return no measurement at all (the partial times array is
discarded), and in the comprehensive pipeline the exception propagates to
the top-level catch, so the whole run ends in an error — the modelled
`process.exit(1)` — with no report (hence no partial statistics block)
written. -/
theorem operation_failure_aborts_run :
    (∀ (b : OpBehavior) (iters warm k : ℕ), b.failsAt = some k → k < warm + iters →
      runHarness b iters warm = .error .opFailed) ∧
    (∀ (cfg : Config) (ps : List Provider) (p : Provider), p ∈ ps →
      p.initOk = true → p.walletOk = true →
      ((∃ k, p.msg.failsAt = some k ∧ k < cfg.msgWarm + cfg.msgIters) ∨
        (∃ k, p.tx.failsAt = some k ∧ k < cfg.txWarm + cfg.txIters)) →
      ∃ e, runComprehensiveBenchmark cfg ps = .error e) := by
  constructor
  · intro b iters warm k hk hr
    exact runHarness_err b iters warm k hk hr
  · intro cfg ps p hp hio hwo hfail
    have hlen0 : ¬ ps.length = 0 := by
      intro h0
      rw [List.length_eq_zero] at h0
      subst h0
      cases hp
    have hpInited : p ∈ initializeServices ps := List.mem_filter.mpr ⟨hp, hio⟩
    have hcontains : (createWalletsForServices (initializeServices ps)).contains p.key = true := by
      have hmem : p.key ∈ createWalletsForServices (initializeServices ps) :=
        List.mem_map_of_mem Provider.key (List.mem_filter.mpr ⟨hpInited, hwo⟩)
      exact List.elem_eq_true_of_mem hmem
    simp only [runComprehensiveBenchmark, if_neg hlen0]
    rcases hfail with ⟨k, hk, hkr⟩ | ⟨k, hk, hkr⟩
    · have herr := runHarness_err p.msg cfg.msgIters cfg.msgWarm k hk hkr
      obtain ⟨e, he⟩ := benchLoop_err Provider.msg cfg.msgIters cfg.msgWarm
        (createWalletsForServices (initializeServices ps)) (initializeServices ps) p
        hpInited hcontains herr
      rw [he]
      exact ⟨.operation e, rfl⟩
    · cases hm : benchLoop Provider.msg cfg.msgIters cfg.msgWarm
        (createWalletsForServices (initializeServices ps)) (initializeServices ps) with
      | error e => exact ⟨.operation e, rfl⟩
      | ok msgRaw =>
        have herr := runHarness_err p.tx cfg.txIters cfg.txWarm k hk hkr
        obtain ⟨e, he⟩ := benchLoop_err Provider.tx cfg.txIters cfg.txWarm
          (createWalletsForServices (initializeServices ps)) (initializeServices ps) p
          hpInited hcontains herr
        rw [he]
        exact ⟨.operation e, rfl⟩

/-- Witness for C4: an operation whose call number 2 throws — inside the
measured phase of a 1-warm-up, 2-iteration run — aborts the harness, and a
provider with that message-signing behavior makes the whole pipeline end
in an error. -/
theorem operation_failure_aborts_run_witness :
    ((failingOpAt 2).failsAt = some 2 ∧ 2 < 1 + 2 ∧
      runHarness (failingOpAt 2) 2 1 = .error .opFailed) ∧
    (providerMsgThrows ∈ ([providerMsgThrows] : List Provider) ∧
      providerMsgThrows.initOk = true ∧ providerMsgThrows.walletOk = true ∧
      ∃ e, runComprehensiveBenchmark cfgSmall [providerMsgThrows] = .error e) :=
  ⟨⟨rfl, by decide, operation_failure_aborts_run.1 (failingOpAt 2) 2 1 2 rfl (by decide)⟩,
   ⟨List.mem_cons_self _ _, rfl, rfl,
    operation_failure_aborts_run.2 cfgSmall [providerMsgThrows] providerMsgThrows
      (List.mem_cons_self _ _) rfl rfl (Or.inl ⟨2, rfl, by decide⟩)⟩⟩

/-! ## Claim C7 -/

/-- C7: providers whose initialization (or wallet creation) fails are
dropped non-fatally; the benchmark then runs for every remaining provider,
and the report's services blocks list exactly the providers that both
initialized and obtained a wallet, in pipeline order. Hypotheses: at least
one provider was discovered, directory keys are distinct (they are
directory names), and the surviving providers' signing calls do not throw. -/
theorem init_failure_dropped_report_lists_survivors (cfg : Config) (ps : List Provider)
    (hne : ps ≠ []) (hnd : (ps.map Provider.key).Nodup)
    (hok : ∀ p ∈ ps, p.msg.failsAt = none ∧ p.tx.failsAt = none) :
    ∃ r, runComprehensiveBenchmark cfg ps = .ok r ∧
      r.msgServices.map Prod.fst =
        (ps.filter (fun p => p.initOk && p.walletOk)).map Provider.serviceName ∧
      r.txServices.map Prod.fst =
        (ps.filter (fun p => p.initOk && p.walletOk)).map Provider.serviceName := by
  have hlen0 : ¬ ps.length = 0 := by
    simpa [List.length_eq_zero] using hne
  have hmsg : ∀ p ∈ initializeServices ps, (Provider.msg p).failsAt = none := by
    intro p hp
    exact (hok p (List.mem_filter.mp hp).1).1
  have htx : ∀ p ∈ initializeServices ps, (Provider.tx p).failsAt = none := by
    intro p hp
    exact (hok p (List.mem_filter.mp hp).1).2
  simp only [runComprehensiveBenchmark, if_neg hlen0]
  rw [benchLoop_ok Provider.msg cfg.msgIters cfg.msgWarm
      (createWalletsForServices (initializeServices ps)) (initializeServices ps) hmsg,
    benchLoop_ok Provider.tx cfg.txIters cfg.txWarm
      (createWalletsForServices (initializeServices ps)) (initializeServices ps) htx]
  refine ⟨_, rfl, ?_, ?_⟩
  · show (buildServicesBlock _).map Prod.fst = _
    rw [map_fst_buildServicesBlock, List.map_map, active_filter_eq ps hnd]
    rfl
  · show (buildServicesBlock _).map Prod.fst = _
    rw [map_fst_buildServicesBlock, List.map_map, active_filter_eq ps hnd]
    rfl

/-- Witness for C7: three discovered providers of which one fails
initialization; the pipeline succeeds and both report blocks list exactly
the other two. -/
theorem init_failure_dropped_report_lists_survivors_witness :
    (([providerInitFails, providerA, providerB] : List Provider) ≠ [] ∧
      (([providerInitFails, providerA, providerB] : List Provider).map Provider.key).Nodup ∧
      (∀ p ∈ ([providerInitFails, providerA, providerB] : List Provider),
        p.msg.failsAt = none ∧ p.tx.failsAt = none)) ∧
    (∃ r, runComprehensiveBenchmark cfgSmall [providerInitFails, providerA, providerB] = .ok r ∧
      r.msgServices.map Prod.fst =
        (([providerInitFails, providerA, providerB] : List Provider).filter
          (fun p => p.initOk && p.walletOk)).map Provider.serviceName ∧
      r.txServices.map Prod.fst =
        (([providerInitFails, providerA, providerB] : List Provider).filter
          (fun p => p.initOk && p.walletOk)).map Provider.serviceName) :=
  ⟨⟨by simp, by decide, by decide⟩,
   init_failure_dropped_report_lists_survivors cfgSmall
     [providerInitFails, providerA, providerB] (by simp) (by decide) (by decide)⟩

/-! ## Claim C3 -/

/-- C3, counterexample: one discovered provider whose initialization fails
leaves zero providers with a usable wallet after the three stages, yet the
run does not fail — it completes with an empty report (exit code 0),
refuting the claim that the pipeline fails whenever zero providers remain. -/
theorem pipeline_zero_survivors_counterexample :
    runComprehensiveBenchmark cfgSmall [providerInitFails] =
      .ok { msgServices := [], txServices := [], msgComparison := none,
            txComparison := none } := by
  have h1 : initializeServices [providerInitFails] = [] := by
    simp [initializeServices, providerInitFails]
  simp [runComprehensiveBenchmark, h1, createWalletsForServices, benchLoop,
    saveResults, buildServicesBlock, statsOfRaw, comparisonBlock]

/-- C3, amended: the discovered-services pipeline fails with the
`No services found` error exactly when discovery returned zero services;
in particular, when at least one service was discovered but zero providers
survive initialization and wallet provisioning, the run does not fail — it
completes successfully with an empty report. (The survivors case of the
original claim is claim C7.) -/
theorem pipeline_fails_iff_none_discovered (cfg : Config) :
    (∀ ps : List Provider,
      (runComprehensiveBenchmark cfg ps = .error .noServices ↔ ps.length = 0)) ∧
    (∀ ps : List Provider, ps ≠ [] →
      (initializeServices ps).filter (fun p => p.walletOk) = [] →
      runComprehensiveBenchmark cfg ps =
        .ok { msgServices := [], txServices := [], msgComparison := none,
              txComparison := none }) := by
  constructor
  · intro ps
    by_cases h : ps.length = 0
    · simp [runComprehensiveBenchmark, h]
    · simp only [runComprehensiveBenchmark, if_neg h]
      constructor
      · intro heq
        cases hm : benchLoop Provider.msg cfg.msgIters cfg.msgWarm
            (createWalletsForServices (initializeServices ps)) (initializeServices ps) with
        | error e => rw [hm] at heq; cases heq
        | ok msgRaw =>
          rw [hm] at heq
          cases ht : benchLoop Provider.tx cfg.txIters cfg.txWarm
              (createWalletsForServices (initializeServices ps)) (initializeServices ps) with
          | error e => rw [ht] at heq; cases heq
          | ok txRaw => rw [ht] at heq; cases heq
      · intro h0
        exact absurd h0 h
  · intro ps hne hw
    have hlen0 : ¬ ps.length = 0 := by
      simpa [List.length_eq_zero] using hne
    have hwallets : createWalletsForServices (initializeServices ps) = [] := by
      rw [createWalletsForServices, hw]
      rfl
    simp only [runComprehensiveBenchmark, if_neg hlen0, hwallets,
      benchLoop_no_wallets]
    simp [saveResults, buildServicesBlock, statsOfRaw, comparisonBlock]

/-- Witness for C3 (amended) at one discovered provider whose
initialization fails. -/
theorem pipeline_fails_iff_none_discovered_witness :
    (runComprehensiveBenchmark cfgSmall [providerInitFails] = .error .noServices ↔
      ([providerInitFails] : List Provider).length = 0) ∧
    (([providerInitFails] : List Provider) ≠ [] ∧
      (initializeServices [providerInitFails]).filter (fun p => p.walletOk) = [] ∧
      runComprehensiveBenchmark cfgSmall [providerInitFails] =
        .ok { msgServices := [], txServices := [], msgComparison := none,
              txComparison := none }) :=
  ⟨(pipeline_fails_iff_none_discovered cfgSmall).1 [providerInitFails],
   ⟨by simp, by simp [initializeServices, providerInitFails],
    (pipeline_fails_iff_none_discovered cfgSmall).2 [providerInitFails] (by simp)
      (by simp [initializeServices, providerInitFails])⟩⟩

/-! ## Claim C8 -/

/-- C8, counterexample: in the transaction benchmark of `benchmark-new.js`
the two `performance.now()` reads bracket the whole adapter
`signTransaction` call, which itself fetches the latest blockhash and
constructs the transaction; with a cost assignment where fetching takes
5 ms, construction 1 ms and signing 2 ms, the recorded duration is 8 ms,
not the 2 ms of the signing call alone — refuting the claim that every
measured iteration of the transaction-signing benchmark times the signing
call only. -/
theorem txTiming_counterexample :
    elapsedTime exampleCost timedStepsComprehensive = 8 ∧
    exampleCost .signCall = 2 ∧
    elapsedTime exampleCost timedStepsComprehensive ≠ exampleCost .signCall := by
  refine ⟨?_, rfl, ?_⟩
  · norm_num [elapsedTime, timedStepsComprehensive, adapterSignTransactionSteps, exampleCost]
  · norm_num [elapsedTime, timedStepsComprehensive, adapterSignTransactionSteps, exampleCost]

/-- C8, amended: the timed region differs per variant. In
`benchmark-signtransaction.js` the per-iteration setup (`createTransaction`,
i.e. blockhash fetch and construction) runs before the timer and the
recorded interval covers only the provider signing call; in the
`benchmark-new.js` transaction benchmark the recorded interval covers the
adapter's whole `signTransaction`, blockhash fetch and construction
included. -/
theorem txTiming_scopes (cost : TxStep → ℚ) :
    elapsedTime cost timedStepsStandalone = cost .signCall ∧
    elapsedTime cost timedStepsComprehensive =
      cost .fetchBlockhash + cost .buildTransaction + cost .signCall := by
  constructor
  · simp [elapsedTime, timedStepsStandalone]
  · simp [elapsedTime, timedStepsComprehensive, adapterSignTransactionSteps]
    ring

/-! ## Helper lemmas: the mean-ascending sort and the rankings -/

theorem meanLeBool_trans (rs : List (String × Stats)) (a b c : String)
    (h1 : decide (meanOf rs a ≤ meanOf rs b) = true)
    (h2 : decide (meanOf rs b ≤ meanOf rs c) = true) :
    decide (meanOf rs a ≤ meanOf rs c) = true :=
  decide_eq_true (le_trans (of_decide_eq_true h1) (of_decide_eq_true h2))

theorem meanLeBool_total (rs : List (String × Stats)) (a b : String) :
    (decide (meanOf rs a ≤ meanOf rs b) || decide (meanOf rs b ≤ meanOf rs a)) = true := by
  rcases le_total (meanOf rs a) (meanOf rs b) with h | h
  · simp [decide_eq_true h]
  · simp [decide_eq_true h]

theorem sortedServiceNames_pairwise (rs : List (String × Stats)) :
    List.Pairwise (fun a b => meanOf rs a ≤ meanOf rs b) (sortedServiceNames rs) := by
  have h := List.sorted_mergeSort (meanLeBool_trans rs) (meanLeBool_total rs)
    (rs.map Prod.fst)
  exact h.imp (fun hab => of_decide_eq_true hab)

theorem sortedServiceNames_length (rs : List (String × Stats)) :
    (sortedServiceNames rs).length = rs.length := by
  rw [sortedServiceNames, List.length_mergeSort, List.length_map]

theorem mem_sortedServiceNames (rs : List (String × Stats)) (a : String) :
    a ∈ sortedServiceNames rs ↔ a ∈ rs.map Prod.fst := by
  rw [sortedServiceNames, List.mem_mergeSort]

theorem rankings_map_service (rs : List (String × Stats)) :
    (buildComparison rs).rankings.map RankingEntry.service = sortedServiceNames rs := by
  simp only [buildComparison, List.map_map]
  have : (RankingEntry.service ∘ fun ie : ℕ × String => (⟨ie.1 + 1, ie.2, meanOf rs ie.2⟩ : RankingEntry)) =
      Prod.snd := rfl
  rw [this, List.enum_map_snd]

theorem rankings_map_meanTime (rs : List (String × Stats)) :
    (buildComparison rs).rankings.map RankingEntry.meanTime =
      (sortedServiceNames rs).map (meanOf rs) := by
  simp only [buildComparison, List.map_map]
  have : (RankingEntry.meanTime ∘ fun ie : ℕ × String => (⟨ie.1 + 1, ie.2, meanOf rs ie.2⟩ : RankingEntry)) =
      (meanOf rs) ∘ Prod.snd := rfl
  rw [this, ← List.map_map, List.enum_map_snd]

theorem lookup_map_value {γ : Type} (f : List ℚ → γ) (raw : List (String × List ℚ))
    (k : String) :
    (raw.map (fun nt => (nt.1, f nt.2))).lookup k = (raw.lookup k).map f := by
  induction raw with
  | nil => rfl
  | cons nt rest ih =>
    rw [List.map_cons, List.lookup_cons, List.lookup_cons]
    by_cases hk : (k == nt.1) = true
    · simp [hk]
    · simp only [Bool.not_eq_true] at hk
      simp [hk, ih]

theorem lookup_isSome_of_mem_keys (raw : List (String × List ℚ)) (k : String)
    (h : k ∈ raw.map Prod.fst) : ∃ ts, raw.lookup k = some ts := by
  induction raw with
  | nil => cases h
  | cons nt rest ih =>
    rw [List.map_cons] at h
    rw [List.lookup_cons]
    rcases List.mem_cons.mp h with rfl | h2
    · exact ⟨nt.2, by simp⟩
    · by_cases hk : (k == nt.1) = true
      · exact ⟨nt.2, by simp [hk]⟩
      · simp only [Bool.not_eq_true] at hk
        simpa [hk] using ih h2

theorem map_fst_statsOfRaw (raw : List (String × List ℚ)) :
    (statsOfRaw raw).map Prod.fst = raw.map Prod.fst := by
  simp [statsOfRaw, List.map_map, Function.comp_def]

/-! ## Claim C5 -/

/-- C5, counterexample: two providers with equal mean, inserted in the
order `b` then `a`. The ranking the report builder produces is
`["b", "a"]` — insertion order, because the JS sort is stable — while the
same two providers inserted in the order `a` then `b` are ranked
`["a", "b"]`: for equal means the order depends on insertion order alone,
so it is not broken lexicographically by provider name as the claim
states (lexicographic tie-break would give `["a", "b"]` in both cases). -/
theorem ranking_tiebreak_counterexample :
    (buildComparison rsTie).rankings.map RankingEntry.service = ["b", "a"] ∧
    (buildComparison rsTie2).rankings.map RankingEntry.service = ["a", "b"] ∧
    meanOf rsTie "a" = meanOf rsTie "b" := by
  have hba : decide (meanOf rsTie "b" ≤ meanOf rsTie "a") = true :=
    decide_eq_true (le_of_eq rfl)
  have hab : decide (meanOf rsTie2 "a" ≤ meanOf rsTie2 "b") = true :=
    decide_eq_true (le_of_eq rfl)
  have hmap1 : rsTie.map Prod.fst = ["b", "a"] := rfl
  have hmap2 : rsTie2.map Prod.fst = ["a", "b"] := rfl
  refine ⟨?_, ?_, rfl⟩
  · rw [rankings_map_service, sortedServiceNames, hmap1,
      List.mergeSort_of_sorted (List.pairwise_cons.mpr
        ⟨fun y hy => by
          rcases List.mem_singleton.mp hy with rfl
          exact hba,
         List.pairwise_singleton _ _⟩)]
  · rw [rankings_map_service, sortedServiceNames, hmap2,
      List.mergeSort_of_sorted (List.pairwise_cons.mpr
        ⟨fun y hy => by
          rcases List.mem_singleton.mp hy with rfl
          exact hab,
         List.pairwise_singleton _ _⟩)]

/-- C5, amended: the ranking lists provider names in ascending order of
mean duration, and for two providers with equal mean the order is
deterministic but given by insertion (benchmark) order — the JS sort is
stable — not by lexicographic provider name. -/
theorem ranking_ascending_stable_by_insertion (rs : List (String × Stats)) :
    List.Pairwise (· ≤ ·) ((buildComparison rs).rankings.map RankingEntry.meanTime) ∧
    (∀ a b : String, meanOf rs a = meanOf rs b →
      List.Sublist [a, b] (rs.map Prod.fst) →
      List.Sublist [a, b] ((buildComparison rs).rankings.map RankingEntry.service)) := by
  constructor
  · rw [rankings_map_meanTime]
    exact List.pairwise_map.mpr (sortedServiceNames_pairwise rs)
  · intro a b hmean hsub
    rw [rankings_map_service, sortedServiceNames]
    exact List.pair_sublist_mergeSort (meanLeBool_trans rs) (meanLeBool_total rs)
      (decide_eq_true (le_of_eq hmean)) hsub

/-- Witness for C5 (amended) at the concrete two-service tie `rsTie`:
the pair `("b", "a")` has equal means and appears in that insertion order,
so it stays in that order in the ranking. -/
theorem ranking_ascending_stable_by_insertion_witness :
    (meanOf rsTie "b" = meanOf rsTie "a" ∧
      List.Sublist ["b", "a"] (rsTie.map Prod.fst)) ∧
    (List.Pairwise (· ≤ ·) ((buildComparison rsTie).rankings.map RankingEntry.meanTime) ∧
      List.Sublist ["b", "a"] ((buildComparison rsTie).rankings.map RankingEntry.service)) :=
  ⟨⟨rfl, List.Sublist.refl _⟩,
   ⟨(ranking_ascending_stable_by_insertion rsTie).1,
    (ranking_ascending_stable_by_insertion rsTie).2 "b" "a" rfl (List.Sublist.refl _)⟩⟩

/-! ## Claim C10 -/

/-- C10: whenever at least two services have results, the emitted
comparison block is internally consistent: some block is emitted;
`fastest` is the service of the first (rank-1) ranking entry; `slowest` is
the service of the last entry; entry i carries rank i+1 (1-based position);
every entry's `meanTime` equals the `statistics.mean` of that service's
entry in the report's services block; and `meanTime` is non-decreasing in
rank. Both the message and the transaction comparison block of
`saveResults` are exactly `comparisonBlock` applied to that operation's
raw-times map. -/
theorem comparison_block_consistent (raw : List (String × List ℚ)) (h2 : 2 ≤ raw.length) :
    ∃ c, comparisonBlock raw = some c ∧
      (∃ e, c.rankings.head? = some e ∧ e.service = c.fastest) ∧
      (∃ e, c.rankings.getLast? = some e ∧ e.service = c.slowest) ∧
      (∀ (i : ℕ) (h : i < c.rankings.length), (c.rankings.get ⟨i, h⟩).rank = i + 1) ∧
      (∀ e ∈ c.rankings, ∃ entry,
        (buildServicesBlock raw).lookup e.service = some entry ∧
        e.meanTime = entry.statistics.mean) ∧
      List.Pairwise (· ≤ ·) (c.rankings.map RankingEntry.meanTime) := by
  have hlenrs : (statsOfRaw raw).length = raw.length := by simp [statsOfRaw]
  have hcb : comparisonBlock raw = some (buildComparison (statsOfRaw raw)) := by
    rw [comparisonBlock, if_pos (by omega)]
  have hserv := rankings_map_service (statsOfRaw raw)
  have hSlen : (sortedServiceNames (statsOfRaw raw)).length = raw.length := by
    rw [sortedServiceNames_length, hlenrs]
  have hSne : sortedServiceNames (statsOfRaw raw) ≠ [] := by
    intro h0
    rw [h0] at hSlen
    simp at hSlen
    omega
  have hrank : (buildComparison (statsOfRaw raw)).rankings =
      (sortedServiceNames (statsOfRaw raw)).enum.map
        (fun ie => (⟨ie.1 + 1, ie.2, meanOf (statsOfRaw raw) ie.2⟩ : RankingEntry)) := rfl
  refine ⟨buildComparison (statsOfRaw raw), hcb, ?_, ?_, ?_, ?_, ?_⟩
  · -- head / fastest
    obtain ⟨x, xs, hx⟩ := List.exists_cons_of_ne_nil hSne
    have hhead : ((buildComparison (statsOfRaw raw)).rankings.map RankingEntry.service).head? =
        some x := by
      rw [hserv, hx]
      rfl
    rw [List.head?_map] at hhead
    obtain ⟨e, he, hes⟩ := Option.map_eq_some'.mp hhead
    refine ⟨e, he, ?_⟩
    have hfast : (buildComparison (statsOfRaw raw)).fastest =
        (sortedServiceNames (statsOfRaw raw)).headD "" := rfl
    rw [hes, hfast, hx]
    rfl
  · -- getLast / slowest
    have hgl : (sortedServiceNames (statsOfRaw raw)).getLast? =
        some ((sortedServiceNames (statsOfRaw raw)).getLast hSne) :=
      List.getLast?_eq_getLast _ hSne
    have hlast : ((buildComparison (statsOfRaw raw)).rankings.map RankingEntry.service).getLast? =
        some ((sortedServiceNames (statsOfRaw raw)).getLast hSne) := by
      rw [hserv]
      exact hgl
    rw [List.getLast?_map] at hlast
    obtain ⟨e, he, hes⟩ := Option.map_eq_some'.mp hlast
    refine ⟨e, he, ?_⟩
    have hslow : (buildComparison (statsOfRaw raw)).slowest =
        (sortedServiceNames (statsOfRaw raw)).getLastD "" := rfl
    rw [hes, hslow, List.getLastD_eq_getLast?, hgl]
    rfl
  · -- rank equals 1-based position
    intro i h
    rw [List.get_eq_getElem]
    have h2i : i < ((sortedServiceNames (statsOfRaw raw)).enum.map
        (fun ie => (⟨ie.1 + 1, ie.2, meanOf (statsOfRaw raw) ie.2⟩ : RankingEntry))).length := by
      rw [← hrank]
      exact h
    simp [hrank, List.getElem_map, List.getElem_enum]
  · -- meanTime equals the services-block statistics mean
    intro e he
    rw [hrank] at he
    obtain ⟨⟨i, s⟩, hmem, rfl⟩ := List.mem_map.mp he
    have hsS : s ∈ sortedServiceNames (statsOfRaw raw) := by
      have hm := List.mem_map_of_mem Prod.snd hmem
      rwa [List.enum_map_snd] at hm
    have hskeys : s ∈ raw.map Prod.fst := by
      have hm := (mem_sortedServiceNames (statsOfRaw raw) s).mp hsS
      rwa [map_fst_statsOfRaw] at hm
    obtain ⟨ts, hts⟩ := lookup_isSome_of_mem_keys raw s hskeys
    have hlkS : (statsOfRaw raw).lookup s = some (calculateStats ts) := by
      have hmv := lookup_map_value (fun ts => calculateStats ts) raw s
      rw [show statsOfRaw raw =
          raw.map (fun nt => (nt.1, (fun ts => calculateStats ts) nt.2)) from rfl]
      rw [hmv, hts]
      rfl
    have hlkB : (buildServicesBlock raw).lookup s =
        some { rawTimes := ts, statistics := calculateStats ts } := by
      have hmv := lookup_map_value
        (fun ts => ({ rawTimes := ts, statistics := calculateStats ts } : ServiceEntry)) raw s
      rw [show buildServicesBlock raw =
          raw.map (fun nt => (nt.1,
            (fun ts => ({ rawTimes := ts, statistics := calculateStats ts } : ServiceEntry)) nt.2))
          from rfl]
      rw [hmv, hts]
      rfl
    refine ⟨{ rawTimes := ts, statistics := calculateStats ts }, hlkB, ?_⟩
    show meanOf (statsOfRaw raw) s = (calculateStats ts).mean
    rw [meanOf, hlkS]
  · -- meanTime non-decreasing with rank
    rw [rankings_map_meanTime]
    exact List.pairwise_map.mpr (sortedServiceNames_pairwise (statsOfRaw raw))

/-- Witness for C10 at a concrete two-service raw-times map. -/
theorem comparison_block_consistent_witness :
    2 ≤ ([("a", [1, 1]), ("b", [2, 2])] : List (String × List ℚ)).length ∧
    ∃ c, comparisonBlock [("a", [1, 1]), ("b", [2, 2])] = some c ∧
      (∃ e, c.rankings.head? = some e ∧ e.service = c.fastest) ∧
      (∃ e, c.rankings.getLast? = some e ∧ e.service = c.slowest) ∧
      (∀ (i : ℕ) (h : i < c.rankings.length), (c.rankings.get ⟨i, h⟩).rank = i + 1) ∧
      (∀ e ∈ c.rankings, ∃ entry,
        (buildServicesBlock [("a", [1, 1]), ("b", [2, 2])]).lookup e.service = some entry ∧
        e.meanTime = entry.statistics.mean) ∧
      List.Pairwise (· ≤ ·) (c.rankings.map RankingEntry.meanTime) :=
  ⟨by decide, comparison_block_consistent [("a", [1, 1]), ("b", [2, 2])] (by decide)⟩
